import Mathlib

set_option linter.unusedVariables false

/-!
# Basic-block tracing clients: `op_time_trace.c` and `bbtime_trace.c`

A shallow embedding of the two DynamoRIO clients of the repository.

* The host engine is seen only through the calls the clients make.  Every call
  with an observable effect is appended to a chronological `journal`; the
  contents of a log file are the texts of the `dr_fprintf` calls made on its
  handle, in journal order (`log_of`).
* An instruction list (`instrlist_t`) is a list of instructions.  A pointer
  into the list that the clients walk with `instr_get_next_app` is the suffix
  of the list that starts at the pointed instruction; `NULL` is the empty
  suffix.  The pointer handed to the per-instruction hook is only ever compared
  (by `drmgr_is_first_instr`), so it is an address.
* C loops are recursions on a fuel argument and return `none` when the fuel is
  exhausted; the hooks pass a fuel that depends on the length of the list, and
  the theorems prove that it is always enough.
* Machine integers are naturals with explicit reductions: `uint` is taken
  modulo `2 ^ 32`, pointers and `INT64` immediates modulo `2 ^ 64`.
* The clients are taken as built by default: `VERBOSE`, `VERBOSE_VERBOSE` and
  `SHOW_RESULTS` are not defined.
-/

namespace DR

/-! ## Host-engine data -/

/-- A file handle as returned by the host engine: either the distinguished
invalid handle or a descriptor. -/
inductive file_t where
  | INVALID_FILE : file_t
  | fd : Nat → file_t
deriving DecidableEq, Repr

/-- Return value of the instrumentation hooks. -/
inductive dr_emit_flags_t where
  | DR_EMIT_DEFAULT : dr_emit_flags_t
deriving DecidableEq, Repr

/-- Functions of the clients that can be the target of a clean call. -/
inductive callee_t where
  | inscount : callee_t
deriving DecidableEq, Repr

/-- The arguments of one `dr_insert_clean_call`: callee, whether the
floating-point state is saved, and the values of the operands passed. -/
structure clean_call_t where
  callee : callee_t
  save_fpstate : Bool
  args : List Nat
deriving DecidableEq, Repr

/-- An instruction of an instruction list: an instruction as the engine hands
it to the hooks (an application instruction when `app` is true, otherwise a
meta-instruction), or the meta-instruction sequence planted by one
`dr_insert_clean_call`. -/
inductive instr_t where
  | decoded (app : Bool) (opcode : Int) : instr_t
  | clean_call (c : clean_call_t) : instr_t
deriving DecidableEq, Repr

/-- An instruction list, in program order. -/
abbrev instrlist_t := List instr_t

/-- Calls into the host engine that have an observable effect. -/
inductive host_call where
  | dr_set_client_name (name url : String) : host_call
  | log_file_open (name : String) (result : file_t) : host_call
  | dr_abort (what : String) : host_call
  | drmgr_init : host_call
  | dr_register_exit_event : host_call
  | drmgr_register_bb_instrumentation_event : host_call
  | dr_log (text : String) : host_call
  | dr_fprintf (f : file_t) (text : String) : host_call
  | dr_printf (text : String) : host_call
  | dr_close_file (f : file_t) : host_call
  | drmgr_exit : host_call
deriving DecidableEq, Repr

/-- The part of the drmgr per-thread data that the clients can observe: the
address of the first instruction of the list being instrumented (`none` for
`NULL`). -/
structure drcontext_t where
  first_instr : Option Nat
deriving DecidableEq, Repr

/-- `instr_is_app`: whether the instruction belongs to the application. -/
def instr_is_app : instr_t → Bool
  | instr_t.decoded app _ => app
  | instr_t.clean_call _ => false

/-- `instr_get_opcode`; the planted call sequence is never asked for one. -/
def instr_get_opcode : instr_t → Int
  | instr_t.decoded _ opcode => opcode
  | instr_t.clean_call _ => 0

/-- `instrlist_first_app`: pointer to the first application instruction, the
empty suffix (`NULL`) when there is none. -/
def instrlist_first_app (bb : instrlist_t) : List instr_t :=
  bb.dropWhile (fun i => !instr_is_app i)

/-- `instr_get_next_app`: pointer to the next application instruction after
the pointed one. -/
def instr_get_next_app : List instr_t → List instr_t
  | [] => []
  | _ :: rest => instrlist_first_app rest

/-- `dr_insert_clean_call`: plants the call before the instruction `at_instr`
points to; with `NULL` the call is appended to the list. -/
def dr_insert_clean_call (bb : instrlist_t) (at_instr : List instr_t)
    (callee : callee_t) (save_fpstate : Bool) (args : List Nat) : instrlist_t :=
  bb.take (bb.length - at_instr.length) ++
    instr_t.clean_call ⟨callee, save_fpstate, args⟩ :: at_instr

/-- `OPND_CREATE_INT64`: a 64-bit immediate operand. -/
def OPND_CREATE_INT64 (v : Nat) : Nat := v % 2 ^ 64

/-- `drmgr_is_first_instr`: whether `instr` is the first instruction of the
list, as drmgr recorded it before the per-instruction pass (a pointer
comparison). -/
def drmgr_is_first_instr (drcontext : drcontext_t) (instr : Nat) : Bool :=
  drcontext.first_instr == some instr

/-! ## Formatting -/

/-- One lowercase hexadecimal digit. -/
def hex_digit (d : Nat) : Char :=
  if d < 10 then Char.ofNat (48 + d) else Char.ofNat (87 + d)

/-- The `w` low hexadecimal digits of `v`, most significant first. -/
def hex_fixed : Nat → Nat → List Char
  | 0, _ => []
  | w + 1, v => hex_fixed w (v / 16) ++ [hex_digit (v % 16)]

/-- Conversion `%016lx` of a 64-bit argument: sixteen digits, zero-padded. -/
def fmt_016lx (v : Nat) : List Char := hex_fixed 16 (v % 2 ^ 64)

/-- Conversion `%lx` of a 64-bit argument: no padding. -/
def fmt_lx (v : Nat) : List Char := Nat.toDigits 16 (v % 2 ^ 64)

/-- Conversion `%d`. -/
def fmt_d (v : Int) : List Char :=
  if v < 0 then '-' :: Nat.toDigits 10 v.natAbs else Nat.toDigits 10 v.natAbs

/-- Modelled from the spec: the format `PFX` comes from the host engine's
headers, not under src/; the logs print identities as `<hex>` with a `0x`
lead, and the 64-bit build pads to sixteen digits as the trace record does. -/
def PFX (v : Nat) : List Char := '0' :: 'x' :: fmt_016lx v

/-- Value of a hexadecimal digit character (`0` for any other character). -/
def hex_digit_val (c : Char) : Nat :=
  if 48 ≤ c.toNat ∧ c.toNat ≤ 57 then c.toNat - 48
  else if 97 ≤ c.toNat ∧ c.toNat ≤ 102 then c.toNat - 87
  else 0

/-- Value of a string of hexadecimal digits, most significant first. -/
def hex_val (ds : List Char) : Nat :=
  ds.foldl (fun acc c => 16 * acc + hex_digit_val c) 0

/-- Whether a character is one of `0`..`9`, `a`..`f`. -/
def is_lower_hex (c : Char) : Bool :=
  (48 ≤ c.toNat && c.toNat ≤ 57) || (97 ≤ c.toNat && c.toNat ≤ 102)

/-- The texts of the `dr_fprintf` calls made on handle `f`, oldest first. -/
def log_of (f : file_t) : List host_call → List String
  | [] => []
  | host_call.dr_fprintf g text :: rest =>
      if g = f then text :: log_of f rest else log_of f rest
  | _ :: rest => log_of f rest

end DR

open DR

/-! ## `op_time_trace.c` -/

namespace OpTimeTrace

/-- The globals of the client together with the journal of its host calls. -/
structure state where
  bbstructlog : file_t
  bbtrace : file_t
  journal : List host_call
deriving DecidableEq, Repr

/-- `dr_fprintf(f, text)`. -/
def dr_fprintf (s : state) (f : file_t) (text : List Char) : state :=
  { s with journal := s.journal ++ [host_call.dr_fprintf f (String.mk text)] }

/-- The text `tag=0x%016lx\n`. -/
def trace_text (tag : Nat) : List Char :=
  "tag=0x".toList ++ fmt_016lx tag ++ ['\n']

/-- The text `instrument(tag=PFX, bb=PFX)\n`. -/
def header_text (tag bb : Nat) : List Char :=
  "instrument(tag=".toList ++ PFX tag ++ ", bb=".toList ++ PFX bb ++ ")\n".toList

/-- The text `opcode %d\n`. -/
def opcode_text (opcode : Int) : List Char :=
  "opcode ".toList ++ fmt_d opcode ++ ['\n']

/-- `inscount(tag)`: the clean call run at every execution of a block. -/
def inscount (s : state) (tag : Nat) : state :=
  dr_fprintf s s.bbtrace (trace_text tag)

/-- `DR_ASSERT(x)` (host engine headers): when `x` is false the failed
assertion is reported on the standard error stream and the process is aborted
with `dr_abort`; the journal entry `dr_abort what` stands for both. -/
def DR_ASSERT (x : Bool) (what : String) (s : state) : Except state state :=
  if x then Except.ok s
  else Except.error { s with journal := s.journal ++ [host_call.dr_abort what] }

/-- `dr_client_main`; `r1` and `r2` are what the two `log_file_open` calls
return.  The result is `error` with the state at the abort when an assertion
fails. -/
def dr_client_main (id : Nat) (r1 r2 : file_t) : Except state state :=
  let j0 : List host_call :=
    [host_call.dr_set_client_name "DynamoRIO Sample Client 'inscount'"
      "http://dynamorio.org/issues"]
  let s1 : state :=
    { bbstructlog := r1, bbtrace := file_t.INVALID_FILE,
      journal := j0 ++ [host_call.log_file_open "bb-struct-trace" r1] }
  let s2 : state :=
    { s1 with bbtrace := r2,
              journal := s1.journal ++ [host_call.log_file_open "bb-time-trace" r2] }
  match DR_ASSERT (s2.bbstructlog != file_t.INVALID_FILE)
      "bbstructlog != INVALID_FILE" s2 with
  | Except.error s => Except.error s
  | Except.ok s3 =>
    match DR_ASSERT (s3.bbtrace != file_t.INVALID_FILE)
        "bbtrace != INVALID_FILE" s3 with
    | Except.error s => Except.error s
    | Except.ok s4 =>
      Except.ok { s4 with journal := s4.journal ++
        [host_call.drmgr_init,
         host_call.dr_register_exit_event,
         host_call.drmgr_register_bb_instrumentation_event,
         host_call.dr_log "Client 'inscount' initializing\n"] }

/-- `event_exit`. -/
def event_exit (s : state) : state :=
  { s with journal := s.journal ++
      [host_call.dr_close_file s.bbstructlog,
       host_call.dr_close_file s.bbtrace,
       host_call.drmgr_exit] }

/-- The counting loop of `event_bb_analysis`: `instr` is the loop pointer,
`num_instrs` the `uint` counter. -/
def count_loop : Nat → List instr_t → Nat → Option Nat
  | 0, _, _ => none
  | _ + 1, [], num_instrs => some num_instrs
  | fuel + 1, i :: rest, num_instrs =>
      count_loop fuel (instr_get_next_app (i :: rest)) ((num_instrs + 1) % 2 ^ 32)

/-- `event_bb_analysis`: returns the state, the value stored in `*user_data`
and the emit flags. -/
def event_bb_analysis (s : state) (drcontext : drcontext_t) (tag : Nat)
    (bb : instrlist_t) (for_trace translating : Bool) :
    Option (state × Nat × dr_emit_flags_t) :=
  match count_loop (bb.length + 1) (instrlist_first_app bb) 0 with
  | none => none
  | some num_instrs => some (s, num_instrs % 2 ^ 64, dr_emit_flags_t.DR_EMIT_DEFAULT)

/-- The opcode loop of `event_app_instruction`. -/
def opcode_loop : Nat → List instr_t → state → Option state
  | 0, _, _ => none
  | _ + 1, [], s => some s
  | fuel + 1, i :: rest, s =>
      opcode_loop fuel (instr_get_next_app (i :: rest))
        (dr_fprintf s s.bbstructlog (opcode_text (instr_get_opcode i)))

/-- `event_app_instruction`: `bb_addr` is the address of the list (what the
header prints), `bb` its instructions, `instr` the address of the instruction
the hook is called for.  Returns the state, the instruction list after the
call and the emit flags. -/
def event_app_instruction (s : state) (drcontext : drcontext_t) (tag bb_addr : Nat)
    (bb : instrlist_t) (instr : Nat) (for_trace translating : Bool) (user_data : Nat) :
    Option (state × instrlist_t × dr_emit_flags_t) :=
  if !drmgr_is_first_instr drcontext instr then
    some (s, bb, dr_emit_flags_t.DR_EMIT_DEFAULT)
  else
    let num_instrs := user_data % 2 ^ 32
    let s1 := dr_fprintf s s.bbstructlog (header_text tag bb_addr)
    let bb1 := dr_insert_clean_call bb (instrlist_first_app bb) callee_t.inscount false
      [OPND_CREATE_INT64 tag]
    match opcode_loop (bb1.length + 1) (instrlist_first_app bb1) s1 with
    | none => none
    | some s2 => some (s2, bb1, dr_emit_flags_t.DR_EMIT_DEFAULT)

/-- Modelled from the spec: the hook dispatch of the host engine (section 6,
the hooks subscribed with register) is not under src/.  The per-instruction
hook is invoked once for every instruction of the list, in program order;
`addrs` are the addresses of the instructions still to be visited.  The hook
may change the list, so the state and the list are threaded through. -/
def drmgr_insertion_pass (drcontext : drcontext_t) (tag bb_addr : Nat)
    (for_trace translating : Bool) (user_data : Nat) :
    List Nat → state → instrlist_t → Option (state × instrlist_t)
  | [], s, bb => some (s, bb)
  | instr :: addrs, s, bb =>
      match event_app_instruction s drcontext tag bb_addr bb instr for_trace translating
          user_data with
      | none => none
      | some (s1, bb1, _) =>
          drmgr_insertion_pass drcontext tag bb_addr for_trace translating user_data
            addrs s1 bb1

/-- Modelled from the spec: one block translation by the host engine, not
under src/ (section 6): the block-analysis hook runs once, then the
per-instruction hook once per instruction of the block.  The instructions of
the list handed over by the analysis are addressed by their position, and
drmgr records the address of the first of them (`NULL` for an empty list) for
`drmgr_is_first_instr`.  Returns the state and the instrumented list. -/
def drmgr_bb_event (s : state) (tag bb_addr : Nat) (bb : instrlist_t)
    (for_trace translating : Bool) : Option (state × instrlist_t) :=
  let drcontext : drcontext_t := ⟨if bb.isEmpty then none else some 0⟩
  match event_bb_analysis s drcontext tag bb for_trace translating with
  | none => none
  | some (s1, user_data, _) =>
      drmgr_insertion_pass drcontext tag bb_addr for_trace translating user_data
        (List.range bb.length) s1 bb

/-- Modelled from the spec: execution of translated code by the host engine
(section 6, `insert_call`), not under src/.  Application and other
meta-instructions do not touch the client; a planted clean call invokes its
callee with the operand values every time execution reaches it. -/
def exec_instr (s : state) : instr_t → Option state
  | instr_t.decoded _ _ => some s
  | instr_t.clean_call ⟨callee_t.inscount, _, [tag]⟩ => some (inscount s tag)
  | instr_t.clean_call _ => none

/-- Runs a translated block from its entry to its end. -/
def exec_block : instrlist_t → state → Option state
  | [], s => some s
  | i :: rest, s =>
      match exec_instr s i with
      | none => none
      | some s1 => exec_block rest s1

/-- A session under the host engine: the client and the code cache, which
maps a block identity to its current translation. -/
structure engine where
  client : state
  cache : Nat → Option instrlist_t

/-- An instruction as the engine decodes it: application flag and opcode. -/
structure src_instr where
  app : Bool
  opcode : Int
deriving DecidableEq, Repr

/-- Events of a session: the engine translates (or re-translates) the block
`tag`, whose list lives at `bb_addr`, or executes the current translation of
the block `tag`. -/
inductive event where
  | translate (tag bb_addr : Nat) (code : List src_instr) : event
  | execute (tag : Nat) : event
deriving DecidableEq, Repr

/-- The instruction list the engine builds for a block. -/
def decode (code : List src_instr) : instrlist_t :=
  code.map (fun i => instr_t.decoded i.app i.opcode)

/-- Modelled from the spec: one event of the host engine (section 2, control
flow), not under src/.  A translation runs the hooks on the decoded block and
stores the instrumented list in the code cache, replacing an earlier
translation of the same identity; an execution runs the cached translation.
Executing a block that has no translation does not happen under the engine
(`none`). -/
def step (e : engine) : event → Option engine
  | event.translate tag bb_addr code =>
      match drmgr_bb_event e.client tag bb_addr (decode code) false false with
      | none => none
      | some (s, bb) =>
          some { client := s, cache := fun t => if t = tag then some bb else e.cache t }
  | event.execute tag =>
      match e.cache tag with
      | none => none
      | some bb =>
          match exec_block bb e.client with
          | none => none
          | some s => some { e with client := s }

/-- A sequence of events. -/
def run : engine → List event → Option engine
  | e, [] => some e
  | e, ev :: evs =>
      match step e ev with
      | none => none
      | some e1 => run e1 evs

/-- The session right after a successful `dr_client_main`: nothing is
translated yet. -/
def start (s : state) : engine := { client := s, cache := fun _ => none }

/-- Whether a sequence of events is a session in which every execution runs a
planted clean call: `planted` lists the 64-bit identities whose current
translation had at least one instruction for the per-instruction hook to be
invoked on. -/
def valid_session : List Nat → List event → Bool
  | _, [] => true
  | planted, event.translate tag _ code :: evs =>
      decide (tag < 2 ^ 64) &&
        valid_session (if code.isEmpty then planted.filter (fun t => t != tag)
          else tag :: planted) evs
  | planted, event.execute tag :: evs =>
      decide (tag ∈ planted) && valid_session planted evs

/-- The state in which `dr_client_main` leaves the process, whether it
returned or aborted. -/
def final_state : Except state state → state
  | Except.ok s => s
  | Except.error s => s

/-- The handles returned by the successive `log_file_open` calls, in call
order. -/
def opened : List host_call → List file_t
  | [] => []
  | host_call.log_file_open _ r :: rest => r :: opened rest
  | _ :: rest => opened rest

/-- The handles passed to the successive `dr_close_file` calls, in call
order. -/
def closed : List host_call → List file_t
  | [] => []
  | host_call.dr_close_file f :: rest => f :: closed rest
  | _ :: rest => closed rest

end OpTimeTrace

/-! ## `bbtime_trace.c` -/

namespace BbTimeTrace

/-- The client has no globals that it uses; its state is the journal of its
host calls. -/
structure state where
  journal : List host_call
deriving DecidableEq, Repr

/-- `dr_printf(text)`. -/
def dr_printf (s : state) (text : List Char) : state :=
  { s with journal := s.journal ++ [host_call.dr_printf (String.mk text)] }

/-- The text `in dynamorio_basic_block(bb=0x%lx, tag=0x%lx)\n` with its two
arguments in the order they are passed. -/
def callback_text (a1 a2 : Nat) : List Char :=
  "in dynamorio_basic_block(bb=0x".toList ++ fmt_lx a1 ++ ", tag=0x".toList ++
    fmt_lx a2 ++ ")\n".toList

/-- The text `instrument(tag=PFX, bb=PFX)\n`. -/
def header_text (tag bb : Nat) : List Char :=
  "instrument(tag=".toList ++ PFX tag ++ ", bb=".toList ++ PFX bb ++ ")\n".toList

/-- `inscount(bb_location, tag)`: both parameters are `uint`; the call prints
`tag` first and `bb_location` second. -/
def inscount (s : state) (bb_location tag : Nat) : state :=
  let bb_location := bb_location % 2 ^ 32
  let tag := tag % 2 ^ 32
  dr_printf s (callback_text tag bb_location)

/-- `dr_client_main`. -/
def dr_client_main (id : Nat) : state :=
  { journal :=
      [host_call.dr_set_client_name "DynamoRIO Sample Client 'inscount'"
         "http://dynamorio.org/issues",
       host_call.drmgr_init,
       host_call.dr_register_exit_event,
       host_call.drmgr_register_bb_instrumentation_event,
       host_call.dr_log "Client 'inscount' initializing\n"] }

/-- `event_exit`. -/
def event_exit (s : state) : state :=
  { s with journal := s.journal ++ [host_call.drmgr_exit] }

/-- The counting loop of `event_bb_analysis`. -/
def count_loop : Nat → List instr_t → Nat → Option Nat
  | 0, _, _ => none
  | _ + 1, [], num_instrs => some num_instrs
  | fuel + 1, i :: rest, num_instrs =>
      count_loop fuel (instr_get_next_app (i :: rest)) ((num_instrs + 1) % 2 ^ 32)

/-- `event_bb_analysis`: returns the state, the value stored in `*user_data`
and the emit flags. -/
def event_bb_analysis (s : state) (drcontext : drcontext_t) (tag : Nat)
    (bb : instrlist_t) (for_trace translating : Bool) :
    Option (state × Nat × dr_emit_flags_t) :=
  match count_loop (bb.length + 1) (instrlist_first_app bb) 0 with
  | none => none
  | some num_instrs => some (s, num_instrs % 2 ^ 64, dr_emit_flags_t.DR_EMIT_DEFAULT)

/-- `event_app_instruction`. -/
def event_app_instruction (s : state) (drcontext : drcontext_t) (tag bb_addr : Nat)
    (bb : instrlist_t) (instr : Nat) (for_trace translating : Bool) (user_data : Nat) :
    state × instrlist_t × dr_emit_flags_t :=
  if !drmgr_is_first_instr drcontext instr then
    (s, bb, dr_emit_flags_t.DR_EMIT_DEFAULT)
  else
    let num_instrs := user_data % 2 ^ 32
    let s1 := dr_printf s (header_text tag bb_addr)
    let bb1 := dr_insert_clean_call bb (instrlist_first_app bb) callee_t.inscount false
      [OPND_CREATE_INT64 bb_addr, OPND_CREATE_INT64 tag]
    (s1, bb1, dr_emit_flags_t.DR_EMIT_DEFAULT)

/-- Modelled from the spec: the per-instruction dispatch of the host engine
(section 6), not under src/: the hook is invoked once for every instruction of
the list, in program order. -/
def drmgr_insertion_pass (drcontext : drcontext_t) (tag bb_addr : Nat)
    (for_trace translating : Bool) (user_data : Nat) :
    List Nat → state → instrlist_t → state × instrlist_t
  | [], s, bb => (s, bb)
  | instr :: addrs, s, bb =>
      let r := event_app_instruction s drcontext tag bb_addr bb instr for_trace
        translating user_data
      drmgr_insertion_pass drcontext tag bb_addr for_trace translating user_data
        addrs r.1 r.2.1

/-- Modelled from the spec: one block translation by the host engine (section
6), not under src/: analysis hook once, then the per-instruction hook for
every instruction, addressed by position. -/
def drmgr_bb_event (s : state) (tag bb_addr : Nat) (bb : instrlist_t)
    (for_trace translating : Bool) : Option (state × instrlist_t) :=
  let drcontext : drcontext_t := ⟨if bb.isEmpty then none else some 0⟩
  match event_bb_analysis s drcontext tag bb for_trace translating with
  | none => none
  | some (s1, user_data, _) =>
      some (drmgr_insertion_pass drcontext tag bb_addr for_trace translating user_data
        (List.range bb.length) s1 bb)

/-- Modelled from the spec: execution of translated code by the host engine
(section 6, `insert_call`), not under src/; the planted clean call invokes
`inscount` with its two operand values. -/
def exec_instr (s : state) : instr_t → Option state
  | instr_t.decoded _ _ => some s
  | instr_t.clean_call ⟨callee_t.inscount, _, [a1, a2]⟩ => some (inscount s a1 a2)
  | instr_t.clean_call _ => none

/-- Runs a translated block from its entry to its end. -/
def exec_block : instrlist_t → state → Option state
  | [], s => some s
  | i :: rest, s =>
      match exec_instr s i with
      | none => none
      | some s1 => exec_block rest s1

/-- Translates the block and executes the translation once. -/
def translate_and_execute (s : state) (tag bb_addr : Nat) (bb : instrlist_t) :
    Option state :=
  match drmgr_bb_event s tag bb_addr bb false false with
  | none => none
  | some (s1, bb1) => exec_block bb1 s1

end BbTimeTrace

/-! ## Instruction lists -/

namespace DR

theorem first_app_cases (l : instrlist_t) :
    (instrlist_first_app l = [] ∧ l.filter instr_is_app = []) ∨
    (∃ i rest, instrlist_first_app l = i :: rest ∧ instr_is_app i = true ∧
      l.filter instr_is_app = i :: rest.filter instr_is_app ∧ rest.length < l.length) := by
  induction l with
  | nil => left; simp [instrlist_first_app]
  | cons a l ih =>
    by_cases ha : instr_is_app a = true
    · right
      refine ⟨a, l, ?_, ha, ?_, ?_⟩
      · simp [instrlist_first_app, List.dropWhile, ha]
      · simp [List.filter, ha]
      · simp
    · have ha' : instr_is_app a = false := by simpa using ha
      have e1 : instrlist_first_app (a :: l) = instrlist_first_app l := by
        simp [instrlist_first_app, List.dropWhile, ha']
      have e2 : (a :: l).filter instr_is_app = l.filter instr_is_app := by
        simp [List.filter, ha']
      rcases ih with ⟨h1, h2⟩ | ⟨i, rest, h1, h2, h3, h4⟩
      · left
        exact ⟨e1.trans h1, e2.trans h2⟩
      · right
        refine ⟨i, rest, e1.trans h1, h2, e2.trans h3, ?_⟩
        simp only [List.length_cons]
        omega

theorem take_sub_dropWhile (p : instr_t → Bool) (l : List instr_t) :
    l.take (l.length - (l.dropWhile p).length) = l.takeWhile p := by
  have h := List.takeWhile_append_dropWhile p l
  have hl : (l.takeWhile p).length + (l.dropWhile p).length = l.length := by
    rw [← List.length_append, h]
  have e : l.length - (l.dropWhile p).length = (l.takeWhile p).length := by omega
  have t := @List.take_left _ (l.takeWhile p) (l.dropWhile p)
  rw [h] at t
  rw [e, t]

theorem insert_clean_call_eq (bb : instrlist_t) (callee : callee_t) (fp : Bool)
    (args : List Nat) :
    dr_insert_clean_call bb (instrlist_first_app bb) callee fp args =
      bb.takeWhile (fun i => !instr_is_app i) ++
        instr_t.clean_call ⟨callee, fp, args⟩ :: bb.dropWhile (fun i => !instr_is_app i) := by
  unfold dr_insert_clean_call instrlist_first_app
  rw [take_sub_dropWhile]

theorem filter_app_insert (bb : instrlist_t) (c : clean_call_t) :
    (bb.takeWhile (fun i => !instr_is_app i) ++
        instr_t.clean_call c :: bb.dropWhile (fun i => !instr_is_app i)).filter instr_is_app =
      bb.filter instr_is_app := by
  have h := List.takeWhile_append_dropWhile (fun i => !instr_is_app i) bb
  have hc : instr_is_app (instr_t.clean_call c) = false := rfl
  rw [List.filter_append, List.filter_cons, hc]
  simp only [Bool.false_eq_true, if_false]
  rw [← List.filter_append, h]

theorem log_of_append (f : file_t) (j1 j2 : List host_call) :
    log_of f (j1 ++ j2) = log_of f j1 ++ log_of f j2 := by
  induction j1 with
  | nil => simp [log_of]
  | cons a j1 ih =>
    cases a <;> simp [log_of, ih]
    split <;> simp

theorem log_of_fprintf_map (f g : file_t) (texts : List String) :
    log_of f (texts.map (fun t => host_call.dr_fprintf g t)) =
      if g = f then texts else [] := by
  induction texts with
  | nil => simp [log_of]
  | cons a l ih =>
    simp only [List.map_cons, log_of, ih]
    split <;> simp

/-! ## Hexadecimal formatting -/

theorem hex_fixed_length (w v : Nat) : (hex_fixed w v).length = w := by
  induction w generalizing v with
  | zero => simp [hex_fixed]
  | succ w ih => simp [hex_fixed, ih]

theorem hex_digit_val_hex_digit : ∀ d, d < 16 → hex_digit_val (hex_digit d) = d := by
  decide

theorem is_lower_hex_hex_digit : ∀ d, d < 16 → is_lower_hex (hex_digit d) = true := by
  decide

theorem hex_val_snoc (l : List Char) (c : Char) :
    hex_val (l ++ [c]) = 16 * hex_val l + hex_digit_val c := by
  simp [hex_val, List.foldl_append]

theorem hex_val_hex_fixed (w v : Nat) : hex_val (hex_fixed w v) = v % 16 ^ w := by
  induction w generalizing v with
  | zero => simp [hex_fixed, hex_val, Nat.mod_one]
  | succ w ih =>
    have hd : v % 16 < 16 := Nat.mod_lt _ (by decide)
    simp only [hex_fixed, hex_val_snoc, ih, hex_digit_val_hex_digit _ hd]
    rw [pow_succ', Nat.mod_mul]
    exact Nat.add_comm _ _

theorem hex_fixed_lower (w v : Nat) : ∀ c ∈ hex_fixed w v, is_lower_hex c = true := by
  induction w generalizing v with
  | zero => simp [hex_fixed]
  | succ w ih =>
    intro c hc
    simp only [hex_fixed, List.mem_append, List.mem_singleton] at hc
    rcases hc with hc | hc
    · exact ih _ c hc
    · subst hc
      exact is_lower_hex_hex_digit _ (Nat.mod_lt _ (by decide))

theorem hex_val_fmt_016lx (v : Nat) (h : v < 2 ^ 64) : hex_val (fmt_016lx v) = v := by
  unfold fmt_016lx
  rw [hex_val_hex_fixed]
  have e : (16 : Nat) ^ 16 = 2 ^ 64 := by norm_num
  rw [e, Nat.mod_mod, Nat.mod_eq_of_lt h]

theorem fmt_016lx_mod (v : Nat) : fmt_016lx (v % 2 ^ 64) = fmt_016lx v := by
  unfold fmt_016lx
  rw [Nat.mod_mod]

end DR

/-! ## `op_time_trace.c`: the hooks -/

namespace OpTimeTrace

theorem count_loop_eq (fuel : Nat) :
    ∀ (l : instrlist_t) (n : Nat), l.length < fuel → n < 2 ^ 32 →
      count_loop fuel (instrlist_first_app l) n =
        some ((n + (l.filter instr_is_app).length) % 2 ^ 32) := by
  induction fuel with
  | zero => intro l n h; omega
  | succ fuel ih =>
    intro l n hl hn
    rcases first_app_cases l with ⟨h1, h2⟩ | ⟨i, rest, h1, _, h3, h4⟩
    · rw [h1, h2]
      simp only [count_loop, List.length_nil, Nat.add_zero, Nat.mod_eq_of_lt hn]
    · rw [h1, h3]
      simp only [count_loop, instr_get_next_app, List.length_cons]
      rw [ih rest _ (by omega) (Nat.mod_lt _ (by norm_num))]
      congr 1
      omega

theorem event_bb_analysis_eq (s : state) (drcontext : drcontext_t) (tag : Nat)
    (bb : instrlist_t) (for_trace translating : Bool) :
    event_bb_analysis s drcontext tag bb for_trace translating =
      some (s, (bb.filter instr_is_app).length % 2 ^ 32, dr_emit_flags_t.DR_EMIT_DEFAULT) := by
  unfold event_bb_analysis
  rw [count_loop_eq _ bb 0 (by omega) (by norm_num)]
  simp only [Nat.zero_add]
  congr 3
  omega

end OpTimeTrace

namespace BbTimeTrace

theorem bb_count_loop_eq (fuel : Nat) :
    ∀ (l : instrlist_t) (n : Nat), l.length < fuel → n < 2 ^ 32 →
      count_loop fuel (instrlist_first_app l) n =
        some ((n + (l.filter instr_is_app).length) % 2 ^ 32) := by
  induction fuel with
  | zero => intro l n h; omega
  | succ fuel ih =>
    intro l n hl hn
    rcases first_app_cases l with ⟨h1, h2⟩ | ⟨i, rest, h1, _, h3, h4⟩
    · rw [h1, h2]
      simp only [count_loop, List.length_nil, Nat.add_zero, Nat.mod_eq_of_lt hn]
    · rw [h1, h3]
      simp only [count_loop, instr_get_next_app, List.length_cons]
      rw [ih rest _ (by omega) (Nat.mod_lt _ (by norm_num))]
      congr 1
      omega

theorem bb_event_bb_analysis_eq (s : state) (drcontext : drcontext_t) (tag : Nat)
    (bb : instrlist_t) (for_trace translating : Bool) :
    event_bb_analysis s drcontext tag bb for_trace translating =
      some (s, (bb.filter instr_is_app).length % 2 ^ 32, dr_emit_flags_t.DR_EMIT_DEFAULT) := by
  unfold event_bb_analysis
  rw [bb_count_loop_eq _ bb 0 (by omega) (by norm_num)]
  simp only [Nat.zero_add]
  congr 3
  omega

end BbTimeTrace

/-! ## `op_time_trace.c`: one translation -/

namespace OpTimeTrace

theorem opcode_loop_eq (fuel : Nat) :
    ∀ (l : instrlist_t) (s : state), l.length < fuel →
      opcode_loop fuel (instrlist_first_app l) s =
        some { s with journal := s.journal ++ (l.filter instr_is_app).map (fun i =>
          host_call.dr_fprintf s.bbstructlog (String.mk (opcode_text (instr_get_opcode i)))) } := by
  induction fuel with
  | zero => intro l s h; omega
  | succ fuel ih =>
    intro l s hl
    rcases first_app_cases l with ⟨h1, h2⟩ | ⟨i, rest, h1, _, h3, h4⟩
    · rw [h1, h2]
      simp [opcode_loop]
    · rw [h1, h3]
      simp only [opcode_loop, instr_get_next_app]
      rw [ih rest _ (by omega)]
      simp [dr_fprintf, List.append_assoc]

theorem event_app_instruction_first (s : state) (drcontext : drcontext_t)
    (tag bb_addr : Nat) (bb : instrlist_t) (instr : Nat) (for_trace translating : Bool)
    (user_data : Nat) (h : drcontext.first_instr = some instr) :
    event_app_instruction s drcontext tag bb_addr bb instr for_trace translating user_data =
      some ({ s with journal := s.journal ++
                host_call.dr_fprintf s.bbstructlog (String.mk (header_text tag bb_addr)) ::
                  (bb.filter instr_is_app).map (fun i =>
                    host_call.dr_fprintf s.bbstructlog
                      (String.mk (opcode_text (instr_get_opcode i)))) },
            bb.takeWhile (fun i => !instr_is_app i) ++
              instr_t.clean_call ⟨callee_t.inscount, false, [tag % 2 ^ 64]⟩ ::
                bb.dropWhile (fun i => !instr_is_app i),
            dr_emit_flags_t.DR_EMIT_DEFAULT) := by
  have hf : drmgr_is_first_instr drcontext instr = true := by
    simp [drmgr_is_first_instr, h]
  unfold event_app_instruction
  simp only [hf, Bool.not_true, Bool.false_eq_true, if_false]
  rw [opcode_loop_eq _ _ _ (Nat.lt_succ_self _), insert_clean_call_eq, filter_app_insert]
  simp [dr_fprintf, OPND_CREATE_INT64, List.append_assoc]

theorem event_app_instruction_other (s : state) (drcontext : drcontext_t)
    (tag bb_addr : Nat) (bb : instrlist_t) (instr : Nat) (for_trace translating : Bool)
    (user_data : Nat) (h : drmgr_is_first_instr drcontext instr = false) :
    event_app_instruction s drcontext tag bb_addr bb instr for_trace translating user_data =
      some (s, bb, dr_emit_flags_t.DR_EMIT_DEFAULT) := by
  unfold event_app_instruction
  simp [h]

theorem insertion_pass_other (drcontext : drcontext_t) (tag bb_addr : Nat)
    (for_trace translating : Bool) (user_data : Nat) (addrs : List Nat)
    (h : ∀ a ∈ addrs, drmgr_is_first_instr drcontext a = false) (s : state)
    (bb : instrlist_t) :
    drmgr_insertion_pass drcontext tag bb_addr for_trace translating user_data addrs s bb =
      some (s, bb) := by
  induction addrs with
  | nil => rfl
  | cons a addrs ih =>
    simp only [drmgr_insertion_pass]
    rw [event_app_instruction_other _ _ _ _ _ _ _ _ _ (h a (List.mem_cons_self _ _))]
    exact ih (fun b hb => h b (List.mem_cons_of_mem _ hb))

theorem drmgr_bb_event_nil (s : state) (tag bb_addr : Nat) (for_trace translating : Bool) :
    drmgr_bb_event s tag bb_addr [] for_trace translating = some (s, []) := by
  unfold drmgr_bb_event
  simp only [event_bb_analysis_eq]
  rfl

theorem drmgr_bb_event_cons (s : state) (tag bb_addr : Nat) (bb : instrlist_t)
    (for_trace translating : Bool) (h : bb ≠ []) :
    drmgr_bb_event s tag bb_addr bb for_trace translating =
      some ({ s with journal := s.journal ++
                host_call.dr_fprintf s.bbstructlog (String.mk (header_text tag bb_addr)) ::
                  (bb.filter instr_is_app).map (fun i =>
                    host_call.dr_fprintf s.bbstructlog
                      (String.mk (opcode_text (instr_get_opcode i)))) },
            bb.takeWhile (fun i => !instr_is_app i) ++
              instr_t.clean_call ⟨callee_t.inscount, false, [tag % 2 ^ 64]⟩ ::
                bb.dropWhile (fun i => !instr_is_app i)) := by
  obtain ⟨a, l, rfl⟩ := List.exists_cons_of_ne_nil h
  unfold drmgr_bb_event
  simp only [event_bb_analysis_eq, List.isEmpty_cons, Bool.false_eq_true, if_false,
    List.length_cons]
  rw [List.range_succ_eq_map]
  simp only [drmgr_insertion_pass]
  rw [event_app_instruction_first _ _ _ _ _ _ _ _ _ rfl]
  simp only []
  apply insertion_pass_other
  intro b hb
  simp only [List.mem_map] at hb
  obtain ⟨c, _, rfl⟩ := hb
  simp [drmgr_is_first_instr]

end OpTimeTrace

/-! ## Block analysis (both clients) -/

/-- C9: in both source files, for every block with fewer than `2 ^ 32`
instructions, `event_bb_analysis` stores in `*user_data` exactly the number of
application instructions of the block (meta-instructions are not counted),
stores zero for a block without application instructions, leaves the state of
the client (hence both logs) untouched and returns `DR_EMIT_DEFAULT`. -/
theorem event_bb_analysis_counts_app_instructions (bb : instrlist_t)
    (drcontext : drcontext_t) (tag : Nat) (for_trace translating : Bool)
    (hlen : bb.length < 2 ^ 32) :
    (∀ s : OpTimeTrace.state,
      OpTimeTrace.event_bb_analysis s drcontext tag bb for_trace translating =
        some (s, bb.countP instr_is_app, dr_emit_flags_t.DR_EMIT_DEFAULT)) ∧
    (∀ s : BbTimeTrace.state,
      BbTimeTrace.event_bb_analysis s drcontext tag bb for_trace translating =
        some (s, bb.countP instr_is_app, dr_emit_flags_t.DR_EMIT_DEFAULT)) ∧
    ((∀ i ∈ bb, instr_is_app i = false) →
      (∀ s : OpTimeTrace.state,
        OpTimeTrace.event_bb_analysis s drcontext tag bb for_trace translating =
          some (s, 0, dr_emit_flags_t.DR_EMIT_DEFAULT)) ∧
      (∀ s : BbTimeTrace.state,
        BbTimeTrace.event_bb_analysis s drcontext tag bb for_trace translating =
          some (s, 0, dr_emit_flags_t.DR_EMIT_DEFAULT))) := by
  have hle : (bb.filter instr_is_app).length ≤ bb.length := List.length_filter_le _ _
  have hmod : (bb.filter instr_is_app).length % 2 ^ 32 = bb.countP instr_is_app := by
    rw [List.countP_eq_length_filter]
    exact Nat.mod_eq_of_lt (by omega)
  have h1 : ∀ s : OpTimeTrace.state,
      OpTimeTrace.event_bb_analysis s drcontext tag bb for_trace translating =
        some (s, bb.countP instr_is_app, dr_emit_flags_t.DR_EMIT_DEFAULT) := by
    intro s
    rw [OpTimeTrace.event_bb_analysis_eq, hmod]
  have h2 : ∀ s : BbTimeTrace.state,
      BbTimeTrace.event_bb_analysis s drcontext tag bb for_trace translating =
        some (s, bb.countP instr_is_app, dr_emit_flags_t.DR_EMIT_DEFAULT) := by
    intro s
    rw [BbTimeTrace.bb_event_bb_analysis_eq, hmod]
  refine ⟨h1, h2, ?_⟩
  intro hmeta
  have hz : bb.countP instr_is_app = 0 := by
    rw [List.countP_eq_zero]
    intro i hi
    simp [hmeta i hi]
  constructor
  · intro s
    rw [h1 s, hz]
  · intro s
    rw [h2 s, hz]

/-- C9 at a block of four instructions, two of which are application
instructions: the stored count is two in both clients. -/
theorem event_bb_analysis_counts_app_instructions_witness :
    OpTimeTrace.event_bb_analysis ⟨file_t.fd 3, file_t.fd 4, []⟩ ⟨some 0⟩ 0x401000
        [instr_t.decoded false 0, instr_t.decoded true 1,
         instr_t.clean_call ⟨callee_t.inscount, false, [7]⟩, instr_t.decoded true 195]
        false false =
      some (⟨file_t.fd 3, file_t.fd 4, []⟩, 2, dr_emit_flags_t.DR_EMIT_DEFAULT) ∧
    BbTimeTrace.event_bb_analysis ⟨[]⟩ ⟨some 0⟩ 0x401000
        [instr_t.decoded false 0, instr_t.decoded true 1,
         instr_t.clean_call ⟨callee_t.inscount, false, [7]⟩, instr_t.decoded true 195]
        false false =
      some (⟨[]⟩, 2, dr_emit_flags_t.DR_EMIT_DEFAULT) :=
  ⟨(event_bb_analysis_counts_app_instructions
      [instr_t.decoded false 0, instr_t.decoded true 1,
       instr_t.clean_call ⟨callee_t.inscount, false, [7]⟩, instr_t.decoded true 195]
      ⟨some 0⟩ 0x401000 false false (by decide)).1 _,
   (event_bb_analysis_counts_app_instructions
      [instr_t.decoded false 0, instr_t.decoded true 1,
       instr_t.clean_call ⟨callee_t.inscount, false, [7]⟩, instr_t.decoded true 195]
      ⟨some 0⟩ 0x401000 false false (by decide)).2.1 _⟩

/-! ## The trace callback of `op_time_trace.c` -/

/-- C2: for every block identity `t < 2 ^ 64` and every state in which the two
sinks are distinct, `inscount(t)` appends to the journal exactly one write, on
the trace sink, of `tag=0x` followed by exactly sixteen lowercase hexadecimal
digits of value `t` and a newline (a record of 23 characters whatever `t`);
the trace log is the old one followed by that record and the structural log
is unchanged. -/
theorem inscount_appends_one_trace_record (s : OpTimeTrace.state) (t : Nat)
    (ht : t < 2 ^ 64) (hsinks : s.bbstructlog ≠ s.bbtrace) :
    ∃ ds : List Char,
      ds.length = 16 ∧ (∀ c ∈ ds, is_lower_hex c = true) ∧ hex_val ds = t ∧
      (OpTimeTrace.inscount s t).journal =
        s.journal ++ [host_call.dr_fprintf s.bbtrace
          (String.mk ("tag=0x".toList ++ ds ++ ['\n']))] ∧
      (String.mk ("tag=0x".toList ++ ds ++ ['\n'])).length = 23 ∧
      (OpTimeTrace.inscount s t).bbstructlog = s.bbstructlog ∧
      (OpTimeTrace.inscount s t).bbtrace = s.bbtrace ∧
      log_of s.bbtrace (OpTimeTrace.inscount s t).journal =
        log_of s.bbtrace s.journal ++ [String.mk ("tag=0x".toList ++ ds ++ ['\n'])] ∧
      log_of s.bbstructlog (OpTimeTrace.inscount s t).journal =
        log_of s.bbstructlog s.journal := by
  refine ⟨fmt_016lx t, hex_fixed_length _ _, hex_fixed_lower _ _, hex_val_fmt_016lx t ht,
    rfl, ?_, rfl, rfl, ?_, ?_⟩
  · simp [String.length, fmt_016lx, hex_fixed_length]
  · simp [OpTimeTrace.inscount, OpTimeTrace.dr_fprintf, OpTimeTrace.trace_text,
      log_of_append, log_of]
  · have hne : ¬ s.bbtrace = s.bbstructlog := fun h => hsinks h.symm
    simp [OpTimeTrace.inscount, OpTimeTrace.dr_fprintf, log_of_append, log_of, hne]

/-- C2 at the identity `0x401000`, from a state that already holds one record
in each log. -/
theorem inscount_appends_one_trace_record_witness :
    ∃ ds : List Char,
      ds.length = 16 ∧ (∀ c ∈ ds, is_lower_hex c = true) ∧ hex_val ds = 0x401000 ∧
      (OpTimeTrace.inscount
          ⟨file_t.fd 3, file_t.fd 4,
            [host_call.dr_fprintf (file_t.fd 3) "opcode 1\n",
             host_call.dr_fprintf (file_t.fd 4) "tag=0x0000000000000010\n"]⟩
          0x401000).journal =
        [host_call.dr_fprintf (file_t.fd 3) "opcode 1\n",
         host_call.dr_fprintf (file_t.fd 4) "tag=0x0000000000000010\n",
         host_call.dr_fprintf (file_t.fd 4) (String.mk ("tag=0x".toList ++ ds ++ ['\n']))] := by
  obtain ⟨ds, h1, h2, h3, h4, _⟩ := inscount_appends_one_trace_record
    ⟨file_t.fd 3, file_t.fd 4,
      [host_call.dr_fprintf (file_t.fd 3) "opcode 1\n",
       host_call.dr_fprintf (file_t.fd 4) "tag=0x0000000000000010\n"]⟩
    0x401000 (by decide) (by decide)
  exact ⟨ds, h1, h2, h3, h4⟩

/-! ## One translation under `op_time_trace.c` -/

/-- C1 as stated fails at a block without instructions: the per-instruction
hook is never invoked, so the translation of the empty list at `0x7f0012345678`
for the identity `0x401000` leaves the structural log empty instead of holding
one header. -/
theorem translation_of_empty_list_writes_no_header :
    ∃ s1 bb1,
      OpTimeTrace.drmgr_bb_event ⟨file_t.fd 3, file_t.fd 4, []⟩ 0x401000 0x7f0012345678 []
        false false = some (s1, bb1) ∧
      log_of (file_t.fd 3) s1.journal = [] ∧
      log_of (file_t.fd 3) s1.journal ≠
        [String.mk (OpTimeTrace.header_text 0x401000 0x7f0012345678)] := by
  refine ⟨_, _, OpTimeTrace.drmgr_bb_event_nil _ _ _ _ _, ?_, ?_⟩ <;> decide

/-- C1 (amended): for every block with at least one instruction, whose
application instructions are `i_1..i_N` in program order with meta-instructions
anywhere between them, one translation (the per-instruction hook invoked for
every instruction) appends to the journal exactly one header
`instrument(tag=<tag>, bb=<bb>)` followed by the `N` lines `opcode <opcode(i_k)>`
in that order, all on the structural sink, and nothing else; the structural
log grows by exactly these lines. -/
theorem translation_appends_structural_record (s : OpTimeTrace.state)
    (tag bb_addr : Nat) (bb : instrlist_t) (for_trace translating : Bool)
    (hbb : bb ≠ []) :
    ∃ s1 bb1,
      OpTimeTrace.drmgr_bb_event s tag bb_addr bb for_trace translating = some (s1, bb1) ∧
      s1.bbstructlog = s.bbstructlog ∧ s1.bbtrace = s.bbtrace ∧
      s1.journal = s.journal ++
        host_call.dr_fprintf s.bbstructlog
            (String.mk (OpTimeTrace.header_text tag bb_addr)) ::
          (bb.filter instr_is_app).map (fun i =>
            host_call.dr_fprintf s.bbstructlog
              (String.mk (OpTimeTrace.opcode_text (instr_get_opcode i)))) ∧
      log_of s.bbstructlog s1.journal = log_of s.bbstructlog s.journal ++
        String.mk (OpTimeTrace.header_text tag bb_addr) ::
          (bb.filter instr_is_app).map (fun i =>
            String.mk (OpTimeTrace.opcode_text (instr_get_opcode i))) := by
  refine ⟨_, _, OpTimeTrace.drmgr_bb_event_cons s tag bb_addr bb for_trace translating hbb,
    rfl, rfl, rfl, ?_⟩
  have hm : (bb.filter instr_is_app).map (fun i =>
      host_call.dr_fprintf s.bbstructlog
        (String.mk (OpTimeTrace.opcode_text (instr_get_opcode i)))) =
      ((bb.filter instr_is_app).map (fun i =>
        String.mk (OpTimeTrace.opcode_text (instr_get_opcode i)))).map
        (fun t => host_call.dr_fprintf s.bbstructlog t) := by
    rw [List.map_map]
    rfl
  simp only [log_of_append, log_of, hm, log_of_fprintf_map, if_true]

/-- C1 (amended) at the block of the scenario: application opcodes `0x01`,
`0x10`, `0xC3` (with a meta-instruction between the first two) give one header
and the opcode lines 1, 16, 195 in that order. -/
theorem translation_appends_structural_record_witness :
    ∃ s1 bb1,
      OpTimeTrace.drmgr_bb_event ⟨file_t.fd 3, file_t.fd 4, []⟩ 0x401000 0x7f0012345678
        [instr_t.decoded true 0x01, instr_t.decoded false 0x38, instr_t.decoded true 0x10,
         instr_t.decoded true 0xC3] false false = some (s1, bb1) ∧
      log_of (file_t.fd 3) s1.journal =
        ["instrument(tag=0x0000000000401000, bb=0x00007f0012345678)\n",
         "opcode 1\n", "opcode 16\n", "opcode 195\n"] ∧
      log_of (file_t.fd 4) s1.journal = [] := by
  obtain ⟨s1, bb1, h1, _, _, h4, h5⟩ := translation_appends_structural_record
    ⟨file_t.fd 3, file_t.fd 4, []⟩ 0x401000 0x7f0012345678
    [instr_t.decoded true 0x01, instr_t.decoded false 0x38, instr_t.decoded true 0x10,
     instr_t.decoded true 0xC3] false false (by decide)
  refine ⟨s1, bb1, h1, ?_, ?_⟩
  · rw [h5]
    decide
  · rw [h4]
    decide

/-- C7 as stated fails at a block with no instructions at all: its translation
leaves the journal as it was, so the structural log gains no header. -/
theorem translation_of_no_instructions_gains_no_record :
    ∃ s1 bb1,
      OpTimeTrace.drmgr_bb_event
        ⟨file_t.fd 5, file_t.fd 6,
          [host_call.dr_fprintf (file_t.fd 5) "opcode 144\n"]⟩ 0x7000 0x9000 []
        true false = some (s1, bb1) ∧
      s1.journal = [host_call.dr_fprintf (file_t.fd 5) "opcode 144\n"] ∧
      ¬ ∃ text, log_of (file_t.fd 5) s1.journal =
          log_of (file_t.fd 5) [host_call.dr_fprintf (file_t.fd 5) "opcode 144\n"] ++ [text] := by
  refine ⟨_, _, OpTimeTrace.drmgr_bb_event_nil _ _ _ _ _, rfl, ?_⟩
  rintro ⟨text, h⟩
  simp [log_of] at h

/-- C7 (amended): for every translation of a block that has at least one
instruction and no application instruction, the journal gains exactly one
write, the header `instrument(tag=..., bb=...)` on the structural sink, and no
opcode line, and the translation returns; for a block with no instructions at
all the hook is never invoked, the translation returns and nothing is
written. -/
theorem translation_without_app_instructions (s : OpTimeTrace.state)
    (tag bb_addr : Nat) (bb : instrlist_t) (for_trace translating : Bool)
    (hmeta : ∀ i ∈ bb, instr_is_app i = false) :
    (bb ≠ [] →
      ∃ s1 bb1,
        OpTimeTrace.drmgr_bb_event s tag bb_addr bb for_trace translating = some (s1, bb1) ∧
        s1.journal = s.journal ++
          [host_call.dr_fprintf s.bbstructlog
            (String.mk (OpTimeTrace.header_text tag bb_addr))] ∧
        log_of s.bbstructlog s1.journal = log_of s.bbstructlog s.journal ++
          [String.mk (OpTimeTrace.header_text tag bb_addr)]) ∧
    (bb = [] →
      OpTimeTrace.drmgr_bb_event s tag bb_addr bb for_trace translating = some (s, [])) := by
  constructor
  · intro hbb
    have hf : bb.filter instr_is_app = [] := by
      rw [List.filter_eq_nil_iff]
      intro i hi
      simp [hmeta i hi]
    refine ⟨_, _, OpTimeTrace.drmgr_bb_event_cons s tag bb_addr bb for_trace translating hbb,
      ?_, ?_⟩
    · simp [hf]
    · simp [hf, log_of_append, log_of]
  · intro hbb
    subst hbb
    exact OpTimeTrace.drmgr_bb_event_nil _ _ _ _ _

/-- C7 (amended) at a block made of two meta-instructions: one header, no
opcode line. -/
theorem translation_without_app_instructions_witness :
    ∃ s1 bb1,
      OpTimeTrace.drmgr_bb_event ⟨file_t.fd 3, file_t.fd 4, []⟩ 0x402000 0x7f0000001000
        [instr_t.decoded false 0x38, instr_t.decoded false 0x39] false false =
          some (s1, bb1) ∧
      log_of (file_t.fd 3) s1.journal =
        ["instrument(tag=0x0000000000402000, bb=0x00007f0000001000)\n"] := by
  obtain ⟨s1, bb1, h1, _, h3⟩ := (translation_without_app_instructions
    ⟨file_t.fd 3, file_t.fd 4, []⟩ 0x402000 0x7f0000001000
    [instr_t.decoded false 0x38, instr_t.decoded false 0x39] false false
    (by decide)).1 (by decide)
  refine ⟨s1, bb1, h1, ?_⟩
  rw [h3]
  decide

/-- C8: for every block with at least one application instruction and every
64-bit identity `tag`, one translation (the hook invoked once per instruction)
inserts exactly one clean call: the instrumented list is the original one
with a single call placed right before the first application instruction;
the callee is `inscount`, the floating-point state is not saved, and the only
argument is `tag`.  Every invocation of the hook for an instruction that is
not the first one returns the state and the list unchanged. -/
theorem translation_inserts_one_clean_call (s : OpTimeTrace.state) (tag bb_addr : Nat)
    (bb : instrlist_t) (for_trace translating : Bool)
    (happ : ∃ i ∈ bb, instr_is_app i = true) (htag : tag < 2 ^ 64) :
    ∃ s1 before first_app after,
      bb = before ++ first_app :: after ∧
      (∀ i ∈ before, instr_is_app i = false) ∧ instr_is_app first_app = true ∧
      OpTimeTrace.drmgr_bb_event s tag bb_addr bb for_trace translating =
        some (s1, before ++
          instr_t.clean_call ⟨callee_t.inscount, false, [tag]⟩ :: first_app :: after) ∧
      (∀ (s2 : OpTimeTrace.state) (drcontext : drcontext_t) (bb2 : instrlist_t)
          (instr user_data : Nat),
        drmgr_is_first_instr drcontext instr = false →
        OpTimeTrace.event_app_instruction s2 drcontext tag bb_addr bb2 instr for_trace
            translating user_data =
          some (s2, bb2, dr_emit_flags_t.DR_EMIT_DEFAULT)) := by
  obtain ⟨i0, hi0, hi0app⟩ := happ
  have hbb : bb ≠ [] := List.ne_nil_of_mem hi0
  have hsplit := List.takeWhile_append_dropWhile (fun i => !instr_is_app i) bb
  rcases first_app_cases bb with ⟨_, h2⟩ | ⟨i, rest, h1, h2, _, _⟩
  · exfalso
    have : i0 ∈ bb.filter instr_is_app := List.mem_filter.mpr ⟨hi0, hi0app⟩
    rw [h2] at this
    exact List.not_mem_nil _ this
  · have hdrop : bb.dropWhile (fun i => !instr_is_app i) = i :: rest := h1
    have hev := OpTimeTrace.drmgr_bb_event_cons s tag bb_addr bb for_trace translating hbb
    rw [hdrop, Nat.mod_eq_of_lt htag] at hev
    refine ⟨_, bb.takeWhile (fun i => !instr_is_app i), i, rest, ?_, ?_, h2, hev, ?_⟩
    · rw [← hdrop, hsplit]
    · intro j hj
      have := List.mem_takeWhile_imp hj
      simpa using this
    · intro s2 drcontext bb2 instr user_data hnot
      exact OpTimeTrace.event_app_instruction_other _ _ _ _ _ _ _ _ _ hnot

/-- C8 at the block `meta, app 1, app 195` with identity `0x401000`: the call
to `inscount(0x401000)` lands between the meta-instruction and the first
application instruction. -/
theorem translation_inserts_one_clean_call_witness :
    (∃ i ∈ [instr_t.decoded false 0x38, instr_t.decoded true 1, instr_t.decoded true 195],
      instr_is_app i = true) ∧
    0x401000 < 2 ^ 64 ∧
    (∃ s1 before first_app after,
      [instr_t.decoded false 0x38, instr_t.decoded true 1, instr_t.decoded true 195] =
        before ++ first_app :: after ∧
      (∀ i ∈ before, instr_is_app i = false) ∧ instr_is_app first_app = true ∧
      OpTimeTrace.drmgr_bb_event ⟨file_t.fd 3, file_t.fd 4, []⟩ 0x401000 0x7f0012345678
          [instr_t.decoded false 0x38, instr_t.decoded true 1, instr_t.decoded true 195]
          false false =
        some (s1, before ++
          instr_t.clean_call ⟨callee_t.inscount, false, [0x401000]⟩ :: first_app :: after) ∧
      (∀ (s2 : OpTimeTrace.state) (drcontext : drcontext_t) (bb2 : instrlist_t)
          (instr user_data : Nat),
        drmgr_is_first_instr drcontext instr = false →
        OpTimeTrace.event_app_instruction s2 drcontext 0x401000 0x7f0012345678 bb2 instr
            false false user_data =
          some (s2, bb2, dr_emit_flags_t.DR_EMIT_DEFAULT))) ∧
    OpTimeTrace.drmgr_bb_event ⟨file_t.fd 3, file_t.fd 4, []⟩ 0x401000 0x7f0012345678
        [instr_t.decoded false 0x38, instr_t.decoded true 1, instr_t.decoded true 195]
        false false =
      some (⟨file_t.fd 3, file_t.fd 4,
          [host_call.dr_fprintf (file_t.fd 3)
             "instrument(tag=0x0000000000401000, bb=0x00007f0012345678)\n",
           host_call.dr_fprintf (file_t.fd 3) "opcode 1\n",
           host_call.dr_fprintf (file_t.fd 3) "opcode 195\n"]⟩,
        [instr_t.decoded false 0x38,
          instr_t.clean_call ⟨callee_t.inscount, false, [0x401000]⟩,
          instr_t.decoded true 1, instr_t.decoded true 195]) :=
  ⟨⟨instr_t.decoded true 1, by decide, rfl⟩, by decide,
   translation_inserts_one_clean_call ⟨file_t.fd 3, file_t.fd 4, []⟩ 0x401000
      0x7f0012345678
      [instr_t.decoded false 0x38, instr_t.decoded true 1, instr_t.decoded true 195]
      false false ⟨instr_t.decoded true 1, by decide, rfl⟩ (by decide),
   by decide⟩

/-! ## Start-up and shutdown of `op_time_trace.c` -/

/-- C5 as stated fails: with the sinks opened as descriptors 3 then 4,
`event_exit` closes 3 and then 4, which is not the reverse of the opening
order. -/
theorem event_exit_does_not_close_in_reverse_order :
    ∃ s0, OpTimeTrace.dr_client_main 0 (file_t.fd 3) (file_t.fd 4) = Except.ok s0 ∧
      OpTimeTrace.opened (OpTimeTrace.event_exit s0).journal = [file_t.fd 3, file_t.fd 4] ∧
      OpTimeTrace.closed (OpTimeTrace.event_exit s0).journal = [file_t.fd 3, file_t.fd 4] ∧
      OpTimeTrace.closed (OpTimeTrace.event_exit s0).journal ≠
        (OpTimeTrace.opened (OpTimeTrace.event_exit s0).journal).reverse := by
  refine ⟨_, rfl, ?_, ?_, ?_⟩ <;> decide

/-- C5 (amended): after a successful `dr_client_main`, `event_exit` performs
exactly three host calls: it closes the structural sink (opened first), then
the trace sink (opened last), and only then calls `drmgr_exit`; the sinks are
closed in the order in which they were opened. -/
theorem event_exit_closes_in_opening_order (id : Nat) (r1 r2 : file_t)
    (s0 : OpTimeTrace.state) (hmain : OpTimeTrace.dr_client_main id r1 r2 = Except.ok s0) :
    (OpTimeTrace.event_exit s0).journal = s0.journal ++
      [host_call.dr_close_file r1, host_call.dr_close_file r2, host_call.drmgr_exit] ∧
    OpTimeTrace.opened s0.journal = [r1, r2] ∧
    OpTimeTrace.closed s0.journal = [] ∧
    OpTimeTrace.opened (OpTimeTrace.event_exit s0).journal = [r1, r2] ∧
    OpTimeTrace.closed (OpTimeTrace.event_exit s0).journal = [r1, r2] := by
  cases r1 <;> cases r2 <;>
    simp [OpTimeTrace.dr_client_main, OpTimeTrace.DR_ASSERT] at hmain
  subst hmain
  simp [OpTimeTrace.event_exit, OpTimeTrace.opened, OpTimeTrace.closed]

/-- C5 (amended) with the sinks opened as descriptors 3 and 4. -/
theorem event_exit_closes_in_opening_order_witness :
    ∃ s0, OpTimeTrace.dr_client_main 0 (file_t.fd 3) (file_t.fd 4) = Except.ok s0 ∧
      (OpTimeTrace.event_exit s0).journal = s0.journal ++
        [host_call.dr_close_file (file_t.fd 3), host_call.dr_close_file (file_t.fd 4),
         host_call.drmgr_exit] :=
  ⟨_, rfl, (event_exit_closes_in_opening_order 0 (file_t.fd 3) (file_t.fd 4) _ rfl).1⟩

/-- C6: for every outcome of the two `log_file_open` calls, if either handle
is `INVALID_FILE` then `dr_client_main` aborts (its last host call is the
abort) and at that point neither the exit hook nor the block hooks have been
registered; the hooks are registered if and only if both handles are valid,
which is also exactly when `dr_client_main` returns; and in no case has
anything been written with `dr_fprintf`. -/
theorem open_failure_aborts_before_registration (id : Nat) (r1 r2 : file_t) :
    ((r1 = file_t.INVALID_FILE ∨ r2 = file_t.INVALID_FILE) →
      ∃ s, OpTimeTrace.dr_client_main id r1 r2 = Except.error s ∧
        (∃ what, s.journal.getLast? = some (host_call.dr_abort what)) ∧
        host_call.dr_register_exit_event ∉ s.journal ∧
        host_call.drmgr_register_bb_instrumentation_event ∉ s.journal ∧
        host_call.drmgr_init ∉ s.journal) ∧
    ((host_call.dr_register_exit_event ∈
          (OpTimeTrace.final_state (OpTimeTrace.dr_client_main id r1 r2)).journal ∧
        host_call.drmgr_register_bb_instrumentation_event ∈
          (OpTimeTrace.final_state (OpTimeTrace.dr_client_main id r1 r2)).journal) ↔
      (r1 ≠ file_t.INVALID_FILE ∧ r2 ≠ file_t.INVALID_FILE)) ∧
    ((∃ s, OpTimeTrace.dr_client_main id r1 r2 = Except.ok s) ↔
      (r1 ≠ file_t.INVALID_FILE ∧ r2 ≠ file_t.INVALID_FILE)) ∧
    (∀ f text, host_call.dr_fprintf f text ∉
      (OpTimeTrace.final_state (OpTimeTrace.dr_client_main id r1 r2)).journal) := by
  cases r1 <;> cases r2 <;>
    simp [OpTimeTrace.dr_client_main, OpTimeTrace.DR_ASSERT, OpTimeTrace.final_state]

/-- C6 when the second sink cannot be opened: the session aborts with no hook
registered and nothing written. -/
theorem open_failure_aborts_before_registration_witness :
    (file_t.fd 3 = file_t.INVALID_FILE ∨ file_t.INVALID_FILE = file_t.INVALID_FILE) ∧
    ∃ s, OpTimeTrace.dr_client_main 0 (file_t.fd 3) file_t.INVALID_FILE = Except.error s ∧
      (∃ what, s.journal.getLast? = some (host_call.dr_abort what)) ∧
      host_call.dr_register_exit_event ∉ s.journal ∧
      host_call.drmgr_register_bb_instrumentation_event ∉ s.journal ∧
      host_call.drmgr_init ∉ s.journal :=
  ⟨Or.inr rfl,
   (open_failure_aborts_before_registration 0 (file_t.fd 3) file_t.INVALID_FILE).1
     (Or.inr rfl)⟩

/-! ## The callback of `bbtime_trace.c` -/

/-- C10 fails on the code: for the block `0x401000` whose list lives at
`0x7f0012345678`, the hook prints the identity and the list address in full,
while the planted callback prints the identity after `bb=` and the low 32
bits of the list address after `tag=`. -/
theorem bbtime_callback_swaps_and_truncates :
    BbTimeTrace.translate_and_execute ⟨[]⟩ 0x401000 0x7f0012345678
        [instr_t.decoded true 1] =
      some ⟨[host_call.dr_printf
               "instrument(tag=0x0000000000401000, bb=0x00007f0012345678)\n",
             host_call.dr_printf
               "in dynamorio_basic_block(bb=0x401000, tag=0x12345678)\n"]⟩ := by
  decide

/-! ## Sessions of `op_time_trace.c` -/

namespace OpTimeTrace

theorem trace_text_inj (a b : Nat) (ha : a < 2 ^ 64) (hb : b < 2 ^ 64)
    (h : String.mk (trace_text a) = String.mk (trace_text b)) : a = b := by
  have h1 : trace_text a = trace_text b := congrArg String.data h
  unfold trace_text at h1
  have h2 : fmt_016lx a = fmt_016lx b := by
    have := List.append_cancel_right h1
    exact List.append_cancel_left this
  have h3 := congrArg hex_val h2
  rwa [hex_val_fmt_016lx a ha, hex_val_fmt_016lx b hb] at h3

theorem inscount_mod (s : state) (tag : Nat) : inscount s (tag % 2 ^ 64) = inscount s tag := by
  unfold inscount trace_text
  rw [fmt_016lx_mod]

theorem exec_block_decode_part (l : instrlist_t)
    (h : ∀ i ∈ l, ∃ a o, i = instr_t.decoded a o) (s : state) :
    exec_block l s = some s := by
  induction l with
  | nil => rfl
  | cons i l ih =>
    obtain ⟨a, o, rfl⟩ := h i (List.mem_cons_self _ _)
    simp only [exec_block, exec_instr]
    exact ih (fun j hj => h j (List.mem_cons_of_mem _ hj))

theorem exec_block_append (l1 l2 : instrlist_t) (s : state) :
    exec_block (l1 ++ l2) s =
      match exec_block l1 s with
      | none => none
      | some s1 => exec_block l2 s1 := by
  induction l1 generalizing s with
  | nil => rfl
  | cons i l1 ih =>
    simp only [List.cons_append, exec_block]
    cases exec_instr s i with
    | none => rfl
    | some s1 => exact ih s1

theorem decode_all_decoded (code : List src_instr) :
    ∀ i ∈ decode code, ∃ a o, i = instr_t.decoded a o := by
  intro i hi
  simp only [decode, List.mem_map] at hi
  obtain ⟨c, _, rfl⟩ := hi
  exact ⟨_, _, rfl⟩

theorem exec_block_planted (code : List src_instr) (tag : Nat) (s : state) :
    exec_block ((decode code).takeWhile (fun i => !instr_is_app i) ++
        instr_t.clean_call ⟨callee_t.inscount, false, [tag % 2 ^ 64]⟩ ::
          (decode code).dropWhile (fun i => !instr_is_app i)) s =
      some (inscount s tag) := by
  rw [exec_block_append, exec_block_decode_part _
    (fun i hi => decode_all_decoded code i ((List.takeWhile_sublist _).subset hi))]
  simp only [exec_block, exec_instr, inscount_mod]
  exact exec_block_decode_part _
    (fun i hi => decode_all_decoded code i ((List.dropWhile_sublist _).subset hi)) _

theorem step_translate_nil (e : engine) (tag bb_addr : Nat) :
    step e (event.translate tag bb_addr []) =
      some ⟨e.client, fun t => if t = tag then some [] else e.cache t⟩ := by
  simp only [step, decode, List.map_nil, drmgr_bb_event_nil]

theorem step_translate_cons (e : engine) (tag bb_addr : Nat) (code : List src_instr)
    (h : code ≠ []) :
    step e (event.translate tag bb_addr code) =
      some ⟨⟨e.client.bbstructlog, e.client.bbtrace, e.client.journal ++
                host_call.dr_fprintf e.client.bbstructlog
                    (String.mk (header_text tag bb_addr)) ::
                  ((decode code).filter instr_is_app).map (fun i =>
                    host_call.dr_fprintf e.client.bbstructlog
                      (String.mk (opcode_text (instr_get_opcode i))))⟩,
             fun t => if t = tag then
                 some ((decode code).takeWhile (fun i => !instr_is_app i) ++
                   instr_t.clean_call ⟨callee_t.inscount, false, [tag % 2 ^ 64]⟩ ::
                     (decode code).dropWhile (fun i => !instr_is_app i))
               else e.cache t⟩ := by
  have hd : decode code ≠ [] := by
    intro h0
    apply h
    simpa [decode] using h0
  simp only [step, drmgr_bb_event_cons _ _ _ _ _ _ hd]

theorem step_execute (e : engine) (tag : Nat) (bb : instrlist_t) (s : state)
    (hbb : e.cache tag = some bb) (hexec : exec_block bb e.client = some s) :
    step e (event.execute tag) = some ⟨s, e.cache⟩ := by
  simp only [step, hbb, hexec]

theorem log_of_struct_writes (f g : file_t) (hne : g ≠ f) (j : List host_call)
    (head : String) (l : List instr_t) (text : instr_t → String) :
    log_of f (j ++ host_call.dr_fprintf g head ::
        l.map (fun i => host_call.dr_fprintf g (text i))) = log_of f j := by
  have hm : l.map (fun i => host_call.dr_fprintf g (text i)) =
      (l.map text).map (fun t => host_call.dr_fprintf g t) := by
    rw [List.map_map]
    rfl
  rw [log_of_append]
  simp only [log_of]
  rw [if_neg hne, hm, log_of_fprintf_map, if_neg hne, List.append_nil]

theorem run_counts (evs : List event) :
    ∀ (e : engine) (planted : List Nat),
      e.client.bbstructlog ≠ e.client.bbtrace →
      (∀ t ∈ planted, t < 2 ^ 64 ∧ ∃ bb, e.cache t = some bb ∧
        ∀ s, exec_block bb s = some (inscount s t)) →
      valid_session planted evs = true →
      ∃ e1, run e evs = some e1 ∧
        ∀ tag, tag < 2 ^ 64 →
          (log_of e.client.bbtrace e1.client.journal).count (String.mk (trace_text tag)) =
            (log_of e.client.bbtrace e.client.journal).count (String.mk (trace_text tag)) +
              evs.count (event.execute tag) := by
  induction evs with
  | nil =>
    intro e planted _ _ _
    exact ⟨e, rfl, fun tag _ => by simp⟩
  | cons ev evs ih =>
    intro e planted hne hinv hv
    cases ev with
    | translate tag bb_addr code =>
      simp only [valid_session, Bool.and_eq_true, decide_eq_true_eq] at hv
      obtain ⟨htag, hv⟩ := hv
      by_cases hc : code = []
      · subst hc
        simp only [List.isEmpty_nil, if_true] at hv
        obtain ⟨e1, hrun, hcount⟩ := ih
          ⟨e.client, fun t => if t = tag then some [] else e.cache t⟩
          (planted.filter (fun t => t != tag)) hne
          (by
            intro t ht
            simp only [List.mem_filter, bne_iff_ne, ne_eq] at ht
            obtain ⟨h1, h2, h3⟩ := hinv t ht.1
            exact ⟨h1, by simpa [ht.2] using ⟨h2, h3⟩⟩) hv
        refine ⟨e1, ?_, ?_⟩
        · simp only [run, step_translate_nil]
          exact hrun
        · intro T hT
          rw [hcount T hT]
          simp
      · have hc' : code.isEmpty = false := by
          cases code with
          | nil => exact absurd rfl hc
          | cons _ _ => rfl
        simp only [hc', Bool.false_eq_true, if_false] at hv
        obtain ⟨e2, hstep, hcl, hca⟩ : ∃ e2, step e (event.translate tag bb_addr code) = some e2 ∧
            e2.client = ⟨e.client.bbstructlog, e.client.bbtrace, e.client.journal ++
                host_call.dr_fprintf e.client.bbstructlog
                    (String.mk (header_text tag bb_addr)) ::
                  ((decode code).filter instr_is_app).map (fun i =>
                    host_call.dr_fprintf e.client.bbstructlog
                      (String.mk (opcode_text (instr_get_opcode i))))⟩ ∧
            e2.cache = fun t => if t = tag then
                 some ((decode code).takeWhile (fun i => !instr_is_app i) ++
                   instr_t.clean_call ⟨callee_t.inscount, false, [tag % 2 ^ 64]⟩ ::
                     (decode code).dropWhile (fun i => !instr_is_app i))
               else e.cache t :=
          ⟨_, step_translate_cons e tag bb_addr code hc, rfl, rfl⟩
        obtain ⟨e1, hrun, hcount⟩ := ih e2 (tag :: planted)
          (by rw [hcl]; exact hne)
          (by
            intro t ht
            rw [hca]
            by_cases htt : t = tag
            · subst htt
              exact ⟨htag, _, by simp, fun s => exec_block_planted code t s⟩
            · have ht' : t ∈ planted := by
                rcases List.mem_cons.mp ht with h | h
                · exact absurd h htt
                · exact h
              obtain ⟨h1, h2, h3⟩ := hinv t ht'
              exact ⟨h1, by simpa [htt] using ⟨h2, h3⟩⟩) hv
        refine ⟨e1, ?_, ?_⟩
        · simp only [run, hstep]
          exact hrun
        · intro T hT
          have := hcount T hT
          rw [hcl] at this
          simp only [] at this
          rw [this, log_of_struct_writes _ _ hne]
          simp
    | execute tag =>
      simp only [valid_session, Bool.and_eq_true, decide_eq_true_eq] at hv
      obtain ⟨hmem, hv⟩ := hv
      obtain ⟨htag, bb, hbb, hexec⟩ := hinv tag hmem
      have hstep := step_execute e tag bb _ hbb (hexec e.client)
      obtain ⟨e1, hrun, hcount⟩ := ih ⟨inscount e.client tag, e.cache⟩ planted
        (by exact hne) (by exact hinv) hv
      refine ⟨e1, ?_, ?_⟩
      · simp only [run, hstep]
        exact hrun
      · intro T hT
        have := hcount T hT
        simp only [inscount, dr_fprintf] at this
        rw [this]
        simp only [log_of_append, log_of, if_true, List.count_append, List.count_cons,
          List.count_nil, Nat.zero_add]
        by_cases hTt : tag = T
        · subst hTt
          simp
          omega
        · have hne2 : String.mk (trace_text tag) ≠ String.mk (trace_text T) :=
            fun h => hTt (trace_text_inj tag T htag hT h)
          simp [hne2, hTt]

end OpTimeTrace

namespace OpTimeTrace

theorem dr_client_main_ok (id : Nat) (r1 r2 : file_t) (s0 : state)
    (hmain : dr_client_main id r1 r2 = Except.ok s0) :
    s0.bbstructlog = r1 ∧ s0.bbtrace = r2 ∧
      (∀ f text, host_call.dr_fprintf f text ∉ s0.journal) ∧
      (∀ f, log_of f s0.journal = []) := by
  cases r1 <;> cases r2 <;> simp [dr_client_main, DR_ASSERT] at hmain
  subst hmain
  simp [log_of]

end OpTimeTrace

/-- C3: for every session that starts from a successful `dr_client_main` with
two distinct sinks and consists of translate and execute events in which every
executed block has a current translation with a planted clean call
(`valid_session`), the session runs to its end and, for every 64-bit block
identity, the number of records `tag=0x<identity>` in the trace log equals the
number of execute events of that block. -/
theorem trace_records_match_executions (id : Nat) (r1 r2 : file_t)
    (s0 : OpTimeTrace.state) (evs : List OpTimeTrace.event)
    (hmain : OpTimeTrace.dr_client_main id r1 r2 = Except.ok s0) (hsinks : r1 ≠ r2)
    (hvalid : OpTimeTrace.valid_session [] evs = true) :
    ∃ e, OpTimeTrace.run (OpTimeTrace.start s0) evs = some e ∧
      ∀ tag, tag < 2 ^ 64 →
        (log_of r2 e.client.journal).count (String.mk (OpTimeTrace.trace_text tag)) =
          evs.count (OpTimeTrace.event.execute tag) := by
  obtain ⟨h1, h2, _, h4⟩ := OpTimeTrace.dr_client_main_ok id r1 r2 s0 hmain
  obtain ⟨e, hrun, hcount⟩ := OpTimeTrace.run_counts evs (OpTimeTrace.start s0) []
    (by simp only [OpTimeTrace.start, h1, h2]; exact hsinks)
    (by intro t ht; exact absurd ht (List.not_mem_nil _)) hvalid
  refine ⟨e, hrun, ?_⟩
  intro tag htag
  have := hcount tag htag
  simp only [OpTimeTrace.start, h2, h4, List.count_nil, Nat.zero_add] at this
  exact this

/-- C3 on the scenario: one block of three application instructions
(`0x01`, `0x10`, `0xC3`) translated once and executed five times leaves five
trace records carrying its identity. -/
theorem trace_records_match_executions_witness :
    ∃ s0 e, OpTimeTrace.dr_client_main 0 (file_t.fd 3) (file_t.fd 4) = Except.ok s0 ∧
      OpTimeTrace.run (OpTimeTrace.start s0)
        [OpTimeTrace.event.translate 0x401000 0x7f0012345678
           [⟨true, 0x01⟩, ⟨true, 0x10⟩, ⟨true, 0xC3⟩],
         OpTimeTrace.event.execute 0x401000, OpTimeTrace.event.execute 0x401000,
         OpTimeTrace.event.execute 0x401000, OpTimeTrace.event.execute 0x401000,
         OpTimeTrace.event.execute 0x401000] = some e ∧
      (log_of (file_t.fd 4) e.client.journal).count "tag=0x0000000000401000\n" = 5 := by
  obtain ⟨e, hrun, hcount⟩ := trace_records_match_executions 0 (file_t.fd 3) (file_t.fd 4) _
    [OpTimeTrace.event.translate 0x401000 0x7f0012345678
       [⟨true, 0x01⟩, ⟨true, 0x10⟩, ⟨true, 0xC3⟩],
     OpTimeTrace.event.execute 0x401000, OpTimeTrace.event.execute 0x401000,
     OpTimeTrace.event.execute 0x401000, OpTimeTrace.event.execute 0x401000,
     OpTimeTrace.event.execute 0x401000] rfl (by decide) (by decide)
  refine ⟨_, e, rfl, hrun, ?_⟩
  have h := hcount 0x401000 (by decide)
  have ht : String.mk (OpTimeTrace.trace_text 0x401000) = "tag=0x0000000000401000\n" := by
    decide
  rw [ht] at h
  rw [h]
  decide

